import Mathlib

/-!
The routine `fill_01` of zmlx/ext/fill_01.cpp.

Shallow embedding of the exported routine

    void fill_01(void* handle, fset set, fget get, unsigned __int64 count)
    {
        for (unsigned __int64 i = 0; i < count; i++)
        {
            set(handle, i, get());
        }
    }

The host is a state of type `S`; the two function pointers are state transformers that
return either a value or a fault. The loop counter is a natural number incremented modulo
`2 ^ 64`. The loop carries fuel: one unit per evaluation of the loop test.
-/

namespace Fill01

/-- Number of values of `unsigned __int64`. -/
def UINT64_MOD : Nat := 2 ^ 64

/-- The source type `fset`, `void (*)(void*, unsigned __int64, double)`: a call receives
the handle, the index and the value, and leaves a new host state together with either a
normal return or a fault. -/
abbrev fset (E S H V : Type) : Type := H → Nat → V → S → Except E Unit × S

/-- The source type `fget`, `double (*)()`: a call leaves a new host state together with
either the returned value or a fault. -/
abbrev fget (E S V : Type) : Type := S → Except E V × S

/-- The `for` loop of `fill_01`, entered with counter `i` in host state `s`. Each unit of
fuel pays for one evaluation of `i < count`; `none` means the fuel ran out. A fault of
`get` or `set` leaves the loop at once with that fault; `get()` is evaluated before the
call of `set`, and `i++` is taken modulo `2 ^ 64`. -/
def loop {E S H V : Type} (handle : H) (set : fset E S H V) (get : fget E S V)
    (count : Nat) : Nat → Nat → S → Option (Except E Unit × S)
  | 0, _, _ => none
  | fuel + 1, i, s =>
    if i < count then
      match get s with
      | (Except.error e, s1) => some (Except.error e, s1)
      | (Except.ok v, s1) =>
        match set handle i v s1 with
        | (Except.error e, s2) => some (Except.error e, s2)
        | (Except.ok _, s2) => loop handle set get count fuel ((i + 1) % UINT64_MOD) s2
    else some (Except.ok (), s)

/-- The routine `fill_01(handle, set, get, count)`: the loop started at `i = 0`. -/
def fill_01 {E S H V : Type} (fuel : Nat) (handle : H) (set : fset E S H V)
    (get : fget E S V) (count : Nat) (s : S) : Option (Except E Unit × S) :=
  loop handle set get count fuel 0 s

/-- One capability invocation as seen by the host: a getter call with its outcome, or a
setter call with its three arguments and its outcome. -/
inductive Event (E H V : Type) : Type where
  | get (r : Except E V)
  | set (h : H) (i : Nat) (v : V) (r : Except E Unit)

/-- A getter that additionally appends its own invocation to a log kept beside the host
state. -/
def traced_get {E S H V : Type} (get : fget E S V) : fget E (S × List (Event E H V)) V :=
  fun st => ((get st.1).1, ((get st.1).2, st.2 ++ [Event.get (get st.1).1]))

/-- A setter that additionally appends its own invocation to a log kept beside the host
state. -/
def traced_set {E S H V : Type} (set : fset E S H V) :
    fset E (S × List (Event E H V)) H V :=
  fun h i v st =>
    ((set h i v st.1).1, ((set h i v st.1).2, st.2 ++ [Event.set h i v (set h i v st.1).1]))

/-- A getter that never faults, given by its value and state change. -/
def total_get {E S V : Type} (g : S → V × S) : fget E S V :=
  fun s => (Except.ok (g s).1, (g s).2)

/-- A setter that never faults, given by its state change. -/
def total_set {E S H V : Type} (f : H → Nat → V → S → S) : fset E S H V :=
  fun h i v s => (Except.ok (), f h i v s)

/-- Outcomes of the getter calls of a trace, in call order. -/
def getter_results {E H V : Type} : List (Event E H V) → List (Except E V)
  | [] => []
  | Event.get r :: tr => r :: getter_results tr
  | Event.set _ _ _ _ :: tr => getter_results tr

/-- Arguments and outcome of the setter calls of a trace, in call order. -/
def setter_calls {E H V : Type} : List (Event E H V) → List (H × Nat × V × Except E Unit)
  | [] => []
  | Event.get _ :: tr => setter_calls tr
  | Event.set h i v r :: tr => (h, i, v, r) :: setter_calls tr

/-- Index arguments of the setter calls of a trace, in call order. -/
def setter_indices {E H V : Type} (tr : List (Event E H V)) : List Nat :=
  (setter_calls tr).map (fun c => c.2.1)

/-- The fault raised by an invocation, if it raised one. -/
def Event.fault {E H V : Type} : Event E H V → Option E
  | Event.get (Except.error e) => some e
  | Event.set _ _ _ (Except.error e) => some e
  | _ => none

/-- Reference definition of the final host state, written from the specification's words:
starting from the initial state, for `i = 0, 1, ..., count - 1` in order, run the getter
in the current state to get `(v, s')` and then run the setter on `(handle, i, v)` in
`s'`. -/
def fill_ref {S H V : Type} (handle : H) (f : H → Nat → V → S → S) (g : S → V × S)
    (count : Nat) (s : S) : S :=
  (List.range count).foldl (fun st i => f handle i (g st).1 (g st).2) s

/-- Proof device: `n` loop bodies in a row from counter `i`, without fuel and without the
modular increment. `loop_eq_iter` shows that the loop computes exactly this. -/
def iter {E S H V : Type} (handle : H) (set : fset E S H V) (get : fget E S V) :
    Nat → Nat → S → Except E Unit × S
  | 0, _, s => (Except.ok (), s)
  | n + 1, i, s =>
    match get s with
    | (Except.error e, s1) => (Except.error e, s1)
    | (Except.ok v, s1) =>
      match set handle i v s1 with
      | (Except.error e, s2) => (Except.error e, s2)
      | (Except.ok _, s2) => iter handle set get n (i + 1) s2

/-- Proof device: the trace made of one successful getter call and one successful setter
call per value of `vs`, with indices counted up from `i`. -/
def pairs {E H V : Type} (h : H) : Nat → List V → List (Event E H V)
  | _, [] => []
  | i, v :: vs => Event.get (Except.ok v) :: Event.set h i v (Except.ok ()) :: pairs h (i + 1) vs

/-- Proof device: the three possible forms of the trace of `n` loop bodies from counter
`i` with outcome `r`: all pairs succeeded; or some pairs succeeded and the next getter
call faulted; or some pairs succeeded, the next getter call returned and the setter call
that received its value faulted. -/
def trace_shape {E H V : Type} (handle : H) (n i : Nat) (r : Except E Unit)
    (tr : List (Event E H V)) : Prop :=
  ∃ (vs : List V) (tl : List (Event E H V)), tr = pairs handle i vs ++ tl ∧
    ((r = Except.ok () ∧ vs.length = n ∧ tl = []) ∨
     (∃ e, r = Except.error e ∧ vs.length < n ∧ tl = [Event.get (Except.error e)]) ∨
     (∃ e v, r = Except.error e ∧ vs.length < n ∧
        tl = [Event.get (Except.ok v), Event.set handle (i + vs.length) v (Except.error e)]))

/-- One evaluation of the loop body `set(handle, i, get());` in host state `s`: `get()` is
evaluated first and a fault of it skips the call of `set`. -/
def body {E S H V : Type} (handle : H) (set : fset E S H V) (get : fget E S V) (i : Nat)
    (s : S) : Except E Unit × S :=
  match get s with
  | (Except.error e, s1) => (Except.error e, s1)
  | (Except.ok v, s1) => set handle i v s1

/-- The loop of `fill_01` with the exact integer increment `i + 1` in place of the 64-bit
increment; it is what the loop would be on unbounded integers, to compare `loop` with. -/
def loop_exact {E S H V : Type} (handle : H) (set : fset E S H V) (get : fget E S V)
    (count : Nat) : Nat → Nat → S → Option (Except E Unit × S)
  | 0, _, _ => none
  | fuel + 1, i, s =>
    if i < count then
      match get s with
      | (Except.error e, s1) => some (Except.error e, s1)
      | (Except.ok v, s1) =>
        match set handle i v s1 with
        | (Except.error e, s2) => some (Except.error e, s2)
        | (Except.ok _, s2) => loop_exact handle set get count fuel (i + 1) s2
    else some (Except.ok (), s)

/-- Example host: a getter that hands out the values queued in the first component of the
state, one per call (and 0.0 once the queue is empty). -/
def queue_get {B : Type} : List Float × B → Float × (List Float × B) :=
  fun s => (s.1.headD 0.0, (s.1.tail, s.2))

/-- Example host: a getter that always returns `c` and changes nothing. -/
def const_get {S V : Type} (c : V) : S → V × S :=
  fun s => (c, s)

/-- Example host: a setter that records the write `(i, v)` in the second component of the
state. -/
def store_set {H A V : Type} : H → Nat → V → A × List (Nat × V) → A × List (Nat × V) :=
  fun _ i v s => (s.1, s.2 ++ [(i, v)])

/-- Example host: a getter that faults once its queue of values is empty. -/
def flaky_get {B : Type} : fget String (List Float × B) Float :=
  fun s =>
    match s.1 with
    | [] => (Except.error "exhausted", s)
    | v :: q => (Except.ok v, (q, s.2))

/-- Example host: a setter that faults on every index from `cap` on. -/
def bounded_set {H A V : Type} (cap : Nat) : fset String (A × List (Nat × V)) H V :=
  fun _ i v s =>
    if i < cap then (Except.ok (), (s.1, s.2 ++ [(i, v)]))
    else (Except.error "out of range", s)

/-! Lemmas on the loop and on traces. -/

theorem loop_eq_iter {E S H V : Type} (handle : H) (set : fset E S H V) (get : fget E S V)
    (count : Nat) (hc : count < UINT64_MOD) :
    ∀ (n fuel i : Nat) (s : S), i + n = count → n < fuel →
      loop handle set get count fuel i s = some (iter handle set get n i s) := by
  intro n
  induction n with
  | zero =>
    intro fuel i s hi hf
    obtain ⟨f, rfl⟩ : ∃ f, fuel = f + 1 := ⟨fuel - 1, by omega⟩
    have : ¬ i < count := by omega
    simp [loop, iter, this]
  | succ n ih =>
    intro fuel i s hi hf
    obtain ⟨f, rfl⟩ : ∃ f, fuel = f + 1 := ⟨fuel - 1, by omega⟩
    have h1 : i < count := by omega
    have h2 : (i + 1) % UINT64_MOD = i + 1 := Nat.mod_eq_of_lt (by omega)
    simp only [loop, iter, h1, if_true, h2]
    rcases hg : get s with ⟨r, s1⟩
    cases r with
    | error e => rfl
    | ok v =>
      simp only []
      rcases hs : set handle i v s1 with ⟨r2, s2⟩
      cases r2 with
      | error e => rfl
      | ok u => exact ih f (i + 1) s2 (by omega) (by omega)

theorem getter_results_append {E H V : Type} (a b : List (Event E H V)) :
    getter_results (a ++ b) = getter_results a ++ getter_results b := by
  induction a with
  | nil => rfl
  | cons x xs ih => cases x <;> simp [getter_results, ih]

theorem setter_calls_append {E H V : Type} (a b : List (Event E H V)) :
    setter_calls (a ++ b) = setter_calls a ++ setter_calls b := by
  induction a with
  | nil => rfl
  | cons x xs ih => cases x <;> simp [setter_calls, ih]

theorem getter_results_pairs {E H V : Type} (h : H) (vs : List V) :
    ∀ i, getter_results (pairs (E := E) h i vs) = vs.map Except.ok := by
  induction vs with
  | nil => intro i; rfl
  | cons v vs ih => intro i; simp [pairs, getter_results, ih]

theorem setter_indices_pairs {E H V : Type} (h : H) (vs : List V) :
    ∀ i, setter_indices (pairs (E := E) h i vs) = List.range' i vs.length := by
  induction vs with
  | nil => intro i; rfl
  | cons v vs ih =>
    intro i
    have := ih (i + 1)
    simp only [setter_indices] at this
    simp [pairs, setter_calls, setter_indices, List.range'_succ, this]

theorem setter_calls_pairs {E H V : Type} (h : H) (vs : List V) :
    ∀ i j, (setter_calls (pairs (E := E) h i vs))[j]? =
      vs[j]?.map (fun v => (h, i + j, v, Except.ok ())) := by
  induction vs with
  | nil => intro i j; simp [pairs, setter_calls]
  | cons v vs ih =>
    intro i j
    cases j with
    | zero => simp [pairs, setter_calls]
    | succ j =>
      simp only [pairs, setter_calls, List.getElem?_cons_succ, ih]
      congr 1
      funext v
      congr 2
      omega

theorem length_pairs {E H V : Type} (h : H) (vs : List V) :
    ∀ i, (pairs (E := E) h i vs).length = 2 * vs.length := by
  induction vs with
  | nil => intro i; rfl
  | cons v vs ih => intro i; simp [pairs, ih]; omega

theorem pairs_even {E H V : Type} (h : H) (vs : List V) :
    ∀ i j, (pairs (E := E) h i vs)[2 * j]? = vs[j]?.map (fun v => Event.get (Except.ok v)) := by
  induction vs with
  | nil => intro i j; simp [pairs]
  | cons v vs ih =>
    intro i j
    cases j with
    | zero => simp [pairs]
    | succ j =>
      have : 2 * (j + 1) = 2 * j + 1 + 1 := by omega
      rw [this]
      simp only [pairs, List.getElem?_cons_succ, ih]

theorem pairs_odd {E H V : Type} (h : H) (vs : List V) :
    ∀ i j, (pairs (E := E) h i vs)[2 * j + 1]? =
      vs[j]?.map (fun v => Event.set h (i + j) v (Except.ok ())) := by
  induction vs with
  | nil => intro i j; simp [pairs]
  | cons v vs ih =>
    intro i j
    cases j with
    | zero => simp [pairs]
    | succ j =>
      have : 2 * (j + 1) + 1 = (2 * j + 1) + 1 + 1 := by omega
      rw [this]
      simp only [pairs, List.getElem?_cons_succ, ih]
      congr 1
      funext v
      congr 1
      omega

theorem fault_pairs {E H V : Type} (h : H) (vs : List V) :
    ∀ i, ∀ ev ∈ pairs (E := E) h i vs, ev.fault = none := by
  induction vs with
  | nil => intro i ev hev; simp [pairs] at hev
  | cons v vs ih =>
    intro i ev hev
    simp only [pairs, List.mem_cons] at hev
    rcases hev with rfl | rfl | hev
    · rfl
    · rfl
    · exact ih (i + 1) ev hev

theorem set_mem_pairs {E H V : Type} (h : H) (vs : List V) :
    ∀ i (h' : H) (j : Nat) (v : V) (r : Except E Unit),
      Event.set h' j v r ∈ pairs (E := E) h i vs →
        h' = h ∧ r = Except.ok () ∧ i ≤ j ∧ vs[j - i]? = some v := by
  induction vs with
  | nil => intro i h' j v r hev; simp [pairs] at hev
  | cons w vs ih =>
    intro i h' j v r hev
    simp only [pairs, List.mem_cons] at hev
    rcases hev with hev | hev | hev
    · cases hev
    · cases hev
      simp
    · obtain ⟨h1, h2, h3, h4⟩ := ih (i + 1) h' j v r hev
      refine ⟨h1, h2, by omega, ?_⟩
      have : j - i = (j - (i + 1)) + 1 := by omega
      rw [this]
      simpa using h4

theorem iter_traced {E S H V : Type} (handle : H) (set : fset E S H V) (get : fget E S V) :
    ∀ (n i : Nat) (s : S) (tr0 : List (Event E H V)), ∃ tr,
      iter handle (traced_set set) (traced_get get) n i (s, tr0) =
        ((iter handle set get n i s).1, ((iter handle set get n i s).2, tr0 ++ tr)) ∧
      trace_shape handle n i (iter handle set get n i s).1 tr := by
  intro n
  induction n with
  | zero =>
    intro i s tr0
    exact ⟨[], by simp [iter], [], [], by simp [pairs], Or.inl ⟨rfl, rfl, rfl⟩⟩
  | succ n ih =>
    intro i s tr0
    rcases hg : get s with ⟨r, s1⟩
    cases r with
    | error e =>
      refine ⟨[Event.get (Except.error e)], by simp [iter, traced_get, hg], [],
        [Event.get (Except.error e)], by simp [pairs], ?_⟩
      exact Or.inr (Or.inl ⟨e, by simp [iter, hg], by simp, rfl⟩)
    | ok v =>
      rcases hs : set handle i v s1 with ⟨r2, s2⟩
      cases r2 with
      | error e =>
        refine ⟨[Event.get (Except.ok v), Event.set handle i v (Except.error e)],
          by simp [iter, traced_get, traced_set, hg, hs], [],
          [Event.get (Except.ok v), Event.set handle i v (Except.error e)], by simp [pairs], ?_⟩
        exact Or.inr (Or.inr ⟨e, v, by simp [iter, hg, hs], by simp, by simp⟩)
      | ok u =>
        obtain ⟨tr, h1, vs, tl, h2, h3⟩ :=
          ih (i + 1) s2 (tr0 ++ [Event.get (Except.ok v)] ++ [Event.set handle i v (Except.ok ())])
        have hit : iter handle set get (n + 1) i s = iter handle set get n (i + 1) s2 := by
          simp [iter, hg, hs]
        refine ⟨Event.get (Except.ok v) :: Event.set handle i v (Except.ok ()) :: tr, ?_,
          v :: vs, tl, by simp [pairs, h2], ?_⟩
        · rw [hit]
          simp only [iter, traced_get, traced_set, hg, hs]
          rw [h1]
          simp
        · rw [hit]
          rcases h3 with ⟨a, b, c⟩ | ⟨e, a, b, c⟩ | ⟨e, w, a, b, c⟩
          · exact Or.inl ⟨a, by simp [b], c⟩
          · exact Or.inr (Or.inl ⟨e, a, by simp; omega, c⟩)
          · refine Or.inr (Or.inr ⟨e, w, a, by simp; omega, ?_⟩)
            rw [c]
            simp only [List.length_cons]
            have : i + 1 + vs.length = i + (vs.length + 1) := by omega
            rw [this]

theorem iter_total_ok {E S H V : Type} (handle : H) (f : H → Nat → V → S → S)
    (g : S → V × S) :
    ∀ (n i : Nat) (s : S),
      (iter (E := E) handle (total_set f) (total_get g) n i s).1 = Except.ok () := by
  intro n
  induction n with
  | zero => intro i s; rfl
  | succ n ih => intro i s; simp only [iter, total_get, total_set]; exact ih _ _

theorem run_traced {E S H V : Type} (fuel count : Nat) (hc : count < UINT64_MOD)
    (hf : count < fuel) (handle : H) (set : fset E S H V) (get : fget E S V) (s : S) :
    ∃ r s' tr, fill_01 fuel handle set get count s = some (r, s') ∧
      fill_01 fuel handle (traced_set set) (traced_get get) count (s, []) = some (r, (s', tr)) ∧
      trace_shape handle count 0 r tr := by
  obtain ⟨tr, h1, h2⟩ := iter_traced handle set get count 0 s []
  refine ⟨(iter handle set get count 0 s).1, (iter handle set get count 0 s).2, tr, ?_, ?_, h2⟩
  · simp only [fill_01]
    rw [loop_eq_iter handle set get count hc count fuel 0 s (by omega) hf]
  · simp only [fill_01]
    rw [loop_eq_iter handle (traced_set set) (traced_get get) count hc count fuel 0 (s, [])
      (by omega) hf, h1]
    simp

theorem run_traced_total {E S H V : Type} (fuel count : Nat) (hc : count < UINT64_MOD)
    (hf : count < fuel) (handle : H) (f : H → Nat → V → S → S) (g : S → V × S) (s : S) :
    ∃ s' vs, vs.length = count ∧
      fill_01 (E := E) fuel handle (total_set f) (total_get g) count s =
        some (Except.ok (), s') ∧
      fill_01 (E := E) fuel handle (traced_set (total_set f)) (traced_get (total_get g)) count
        (s, []) = some (Except.ok (), (s', pairs handle 0 vs)) := by
  obtain ⟨tr, h1, vs, tl, h2, h3⟩ :=
    iter_traced (E := E) handle (total_set f) (total_get g) count 0 s []
  have hok := iter_total_ok (E := E) handle f g count 0 s
  rw [hok] at h3 h1
  rcases h3 with ⟨_, b, c⟩ | ⟨e, a, _⟩ | ⟨e, w, a, _⟩
  · refine ⟨(iter (E := E) handle (total_set f) (total_get g) count 0 s).2, vs, b, ?_, ?_⟩
    · simp only [fill_01]
      rw [loop_eq_iter handle _ _ count hc count fuel 0 s (by omega) hf, ← hok]
    · simp only [fill_01]
      rw [loop_eq_iter handle _ _ count hc count fuel 0 (s, []) (by omega) hf, h1, h2, c]
      simp
  · cases a
  · cases a

theorem iter_total_inv {E S H V : Type} (handle : H) (f : H → Nat → V → S → S)
    (g : S → V × S) (P : S → Prop) (hg : ∀ s, P s → P (g s).2)
    (hs : ∀ i v s, P s → P (f handle i v s)) :
    ∀ (n i : Nat) (s : S), P s →
      P (iter (E := E) handle (total_set f) (total_get g) n i s).2 := by
  intro n
  induction n with
  | zero => intro i s h; exact h
  | succ n ih =>
    intro i s h
    simp only [iter, total_get, total_set]
    exact ih _ _ (hs _ _ _ (hg _ h))

theorem iter_total_fold {E S H V : Type} (handle : H) (f : H → Nat → V → S → S)
    (g : S → V × S) :
    ∀ (n i : Nat) (s : S),
      (iter (E := E) handle (total_set f) (total_get g) n i s).2 =
        (List.range' i n).foldl (fun st j => f handle j (g st).1 (g st).2) s := by
  intro n
  induction n with
  | zero => intro i s; rfl
  | succ n ih =>
    intro i s
    simp only [iter, total_get, total_set, List.range'_succ, List.foldl_cons]
    exact ih _ _

theorem fill_01_total_state {E S H V : Type} (fuel count : Nat) (hc : count < UINT64_MOD)
    (hf : count < fuel) (handle : H) (f : H → Nat → V → S → S) (g : S → V × S) (s : S) :
    fill_01 (E := E) fuel handle (total_set f) (total_get g) count s =
      some (Except.ok (), (iter (E := E) handle (total_set f) (total_get g) count 0 s).2) := by
  simp only [fill_01]
  rw [loop_eq_iter handle _ _ count hc count fuel 0 s (by omega) hf,
    ← iter_total_ok (E := E) handle f g count 0 s]

theorem take_pairs {E H V : Type} (h : H) (vs : List V) :
    ∀ i j, (pairs (E := E) h i vs).take (2 * j) = pairs h i (vs.take j) := by
  induction vs with
  | nil => intro i j; simp [pairs]
  | cons v vs ih =>
    intro i j
    cases j with
    | zero => simp [pairs]
    | succ j =>
      have : 2 * (j + 1) = 2 * j + 1 + 1 := by omega
      rw [this]
      simp only [pairs, List.take_succ_cons, ih]

theorem length_setter_calls_pairs {E H V : Type} (h : H) (vs : List V) (i : Nat) :
    (setter_calls (pairs (E := E) h i vs)).length = vs.length := by
  have := congrArg List.length (setter_indices_pairs (E := E) h vs i)
  simpa [setter_indices] using this

theorem loop_total_none {E S H V : Type} (handle : H) (f : H → Nat → V → S → S)
    (g : S → V × S) (count : Nat) (hc : count < UINT64_MOD) :
    ∀ (fuel n i : Nat) (s : S), i + n = count → fuel ≤ n →
      loop (E := E) handle (total_set f) (total_get g) count fuel i s = none := by
  intro fuel
  induction fuel with
  | zero => intro n i s _ _; rfl
  | succ fuel ih =>
    intro n i s hi hf
    have h1 : i < count := by omega
    have h2 : (i + 1) % UINT64_MOD = i + 1 := Nat.mod_eq_of_lt (by omega)
    simp only [loop, h1, if_true, h2, total_get, total_set]
    exact ih (n - 1) (i + 1) _ (by omega) (by omega)

theorem loop_eq_loop_exact {E S H V : Type} (handle : H) (set : fset E S H V)
    (get : fget E S V) (count : Nat) (hc : count < UINT64_MOD) :
    ∀ (fuel i : Nat) (s : S),
      loop handle set get count fuel i s = loop_exact handle set get count fuel i s := by
  intro fuel
  induction fuel with
  | zero => intro i s; rfl
  | succ fuel ih =>
    intro i s
    by_cases h1 : i < count
    · have h2 : (i + 1) % UINT64_MOD = i + 1 := Nat.mod_eq_of_lt (by omega)
      simp only [loop, loop_exact, h1, if_true, h2, ih]
    · simp only [loop, loop_exact, h1, if_false]

theorem iter_add {E S H V : Type} (handle : H) (set : fset E S H V) (get : fget E S V) :
    ∀ (m d i : Nat) (s : S),
      iter handle set get (m + d) i s =
        match iter handle set get m i s with
        | (Except.ok _, s') => iter handle set get d (i + m) s'
        | (Except.error e, s') => (Except.error e, s') := by
  intro m
  induction m with
  | zero => intro d i s; simp [iter]
  | succ m ih =>
    intro d i s
    have hmd : m + 1 + d = (m + d) + 1 := by omega
    rw [hmd]
    simp only [iter]
    rcases hg : get s with ⟨r, s1⟩
    cases r with
    | error e => rfl
    | ok v =>
      simp only []
      rcases hs : set handle i v s1 with ⟨r2, s2⟩
      cases r2 with
      | error e => rfl
      | ok u =>
        simp only []
        rw [ih d (i + 1) s2]
        have : i + 1 + m = i + (m + 1) := by omega
        rw [this]

theorem iter_one {E S H V : Type} (handle : H) (set : fset E S H V) (get : fget E S V)
    (i : Nat) (s : S) : iter handle set get 1 i s = body handle set get i s := by
  simp only [iter, body]
  rcases hg : get s with ⟨r, s1⟩
  cases r with
  | error e => rfl
  | ok v =>
    simp only []
    rcases hs : set handle i v s1 with ⟨r2, s2⟩
    cases r2 with
    | error e => rfl
    | ok u => rfl

theorem setter_indices_of_shape {E H V : Type} (handle : H) (n : Nat) (r : Except E Unit)
    (tr : List (Event E H V)) (h : trace_shape handle n 0 r tr) :
    ∃ m, m ≤ n ∧ setter_indices tr = List.range m := by
  obtain ⟨vs, tl, h1, h2⟩ := h
  have hp := setter_indices_pairs (E := E) handle vs 0
  simp only [setter_indices] at hp
  rcases h2 with ⟨_, b, c⟩ | ⟨e, _, b, c⟩ | ⟨e, w, _, b, c⟩
  · refine ⟨vs.length, by omega, ?_⟩
    rw [h1, c]
    simp only [setter_indices, List.append_nil]
    rw [hp, List.range_eq_range']
  · refine ⟨vs.length, by omega, ?_⟩
    rw [h1, c]
    simp only [setter_indices, setter_calls_append, setter_calls, List.append_nil]
    rw [hp, List.range_eq_range']
  · refine ⟨vs.length + 1, by omega, ?_⟩
    rw [h1, c]
    simp only [setter_indices, setter_calls_append, setter_calls, List.map_append]
    rw [hp, List.range_eq_range']
    simp [List.range'_concat]

theorem traced_extends {E S H V : Type} (fuel m n : Nat) (hn : n < UINT64_MOD)
    (hf : n < fuel) (hmn : m ≤ n) (handle : H) (set : fset E S H V) (get : fget E S V)
    (s : S) :
    ∃ r_m s_m tr_m r_n s_n ext,
      fill_01 fuel handle (traced_set set) (traced_get get) m (s, []) =
        some (r_m, (s_m, tr_m)) ∧
      fill_01 fuel handle (traced_set set) (traced_get get) n (s, []) =
        some (r_n, (s_n, tr_m ++ ext)) := by
  obtain ⟨d, rfl⟩ : ∃ d, n = m + d := ⟨n - m, by omega⟩
  have em := loop_eq_iter handle (traced_set set) (traced_get get) m (by omega) m fuel 0
    (s, ([] : List (Event E H V))) (by omega) (by omega)
  have en := loop_eq_iter handle (traced_set set) (traced_get get) (m + d) hn (m + d) fuel 0
    (s, ([] : List (Event E H V))) (by omega) hf
  simp only [fill_01, em, en, iter_add handle (traced_set set) (traced_get get) m d 0 (s, [])]
  rcases hm : iter handle (traced_set set) (traced_get get) m 0 (s, ([] : List (Event E H V)))
    with ⟨r, s_m, tr_m⟩
  cases r with
  | error e => exact ⟨Except.error e, s_m, tr_m, Except.error e, s_m, [], rfl, by simp⟩
  | ok u =>
    obtain ⟨tr, h1, _⟩ := iter_traced handle set get d (0 + m) s_m tr_m
    exact ⟨Except.ok u, s_m, tr_m, _, _, tr, rfl, by simp only []; rw [h1]⟩

/-! The claims. -/

/-- C1: for every 64-bit count and total getter/setter models, one run of `fill_01`
(with enough fuel) finishes normally and its invocation trace holds exactly `count`
getter calls and exactly `count` setter calls. -/
theorem fill_01_invocation_counts {E S H V : Type} (fuel count : Nat)
    (hc : count < UINT64_MOD) (hf : count < fuel) (handle : H)
    (f : H → Nat → V → S → S) (g : S → V × S) (s : S) :
    ∃ s' tr,
      fill_01 (E := E) fuel handle (traced_set (total_set f)) (traced_get (total_get g)) count
        (s, []) = some (Except.ok (), (s', tr)) ∧
      (getter_results tr).length = count ∧ (setter_calls tr).length = count := by
  obtain ⟨s', vs, hl, _, h2⟩ := run_traced_total (E := E) fuel count hc hf handle f g s
  refine ⟨s', _, h2, ?_, ?_⟩
  · rw [getter_results_pairs, List.length_map, hl]
  · rw [length_setter_calls_pairs, hl]

theorem fill_01_invocation_counts_witness :
    (3 < UINT64_MOD ∧ 3 < 4) ∧
    ∃ s' tr,
      fill_01 (E := Empty) 4 (4096 : Nat) (traced_set (total_set store_set))
        (traced_get (total_get queue_get)) 3 (([1.0, 2.0, 3.0], []), []) =
        some (Except.ok (), (s', tr)) ∧
      (getter_results tr).length = 3 ∧ (setter_calls tr).length = 3 :=
  ⟨⟨by decide, by decide⟩,
    fill_01_invocation_counts 4 3 (by decide) (by decide) 4096 store_set queue_get
      ([1.0, 2.0, 3.0], [])⟩

/-- C2: the index arguments of the setter calls made by `fill_01`, in call order, are
exactly `0, 1, ..., count-1`: strictly increasing, without repetition, and every index
below `count` occurs. -/
theorem fill_01_setter_indices {E S H V : Type} (fuel count : Nat)
    (hc : count < UINT64_MOD) (hf : count < fuel) (handle : H)
    (f : H → Nat → V → S → S) (g : S → V × S) (s : S) :
    ∃ s' tr,
      fill_01 (E := E) fuel handle (traced_set (total_set f)) (traced_get (total_get g)) count
        (s, []) = some (Except.ok (), (s', tr)) ∧
      setter_indices tr = List.range count ∧
      (setter_indices tr).Pairwise (fun a b => a < b) ∧
      (setter_indices tr).Nodup ∧
      (∀ i, i ∈ setter_indices tr ↔ i < count) := by
  obtain ⟨s', vs, hl, _, h2⟩ := run_traced_total (E := E) fuel count hc hf handle f g s
  have hi : setter_indices (pairs (E := E) handle 0 vs) = List.range count := by
    rw [setter_indices_pairs, hl, List.range_eq_range']
  refine ⟨s', _, h2, hi, ?_, ?_, ?_⟩
  · rw [hi]; exact List.pairwise_lt_range count
  · rw [hi]; exact List.nodup_range count
  · intro i; rw [hi]; exact List.mem_range

theorem fill_01_setter_indices_witness :
    (3 < UINT64_MOD ∧ 3 < 4) ∧
    ∃ s' tr,
      fill_01 (E := Empty) 4 (4096 : Nat) (traced_set (total_set store_set))
        (traced_get (total_get queue_get)) 3 (([1.0, 2.0, 3.0], []), []) =
        some (Except.ok (), (s', tr)) ∧
      setter_indices tr = List.range 3 ∧
      (setter_indices tr).Pairwise (fun a b => a < b) ∧
      (setter_indices tr).Nodup ∧
      (∀ i, i ∈ setter_indices tr ↔ i < 3) :=
  ⟨⟨by decide, by decide⟩,
    fill_01_setter_indices 4 3 (by decide) (by decide) 4096 store_set queue_get
      ([1.0, 2.0, 3.0], [])⟩

/-- C3: the setter call with index `i` receives exactly the value returned by the `i`-th
getter call, unmodified. The two scenarios of the specification are part of the statement:
a getter returning 1.0, 2.0, 3.0 with `count = 3` gives the setter calls `(handle,0,1.0)`,
`(handle,1,2.0)`, `(handle,2,3.0)` in that order, and a constant getter returning 7.5 with
`count = 5` gives five setter calls with value 7.5 at indices 0 through 4. -/
theorem fill_01_value_pairing :
    (∀ (E S H V : Type) (fuel count : Nat), count < UINT64_MOD → count < fuel →
      ∀ (handle : H) (f : H → Nat → V → S → S) (g : S → V × S) (s : S),
      ∃ s' tr,
        fill_01 (E := E) fuel handle (traced_set (total_set f)) (traced_get (total_get g))
          count (s, []) = some (Except.ok (), (s', tr)) ∧
        (∀ i, i < count → ∃ v,
          (getter_results tr)[i]? = some (Except.ok v) ∧
          (setter_calls tr)[i]? = some (handle, i, v, Except.ok ()) ∧
          (∀ h' v' r, Event.set h' i v' r ∈ tr → v' = v))) ∧
    (∀ (H : Type) (handle : H) (fuel : Nat), ∃ s' tr,
      fill_01 (E := Empty) (fuel + 4) handle (traced_set (total_set store_set))
        (traced_get (total_get queue_get)) 3 (([1.0, 2.0, 3.0], []), []) =
        some (Except.ok (), (s', tr)) ∧
      tr = [Event.get (Except.ok 1.0), Event.set handle 0 1.0 (Except.ok ()),
            Event.get (Except.ok 2.0), Event.set handle 1 2.0 (Except.ok ()),
            Event.get (Except.ok 3.0), Event.set handle 2 3.0 (Except.ok ())] ∧
      setter_calls tr = [(handle, 0, 1.0, Except.ok ()), (handle, 1, 2.0, Except.ok ()),
        (handle, 2, 3.0, Except.ok ())] ∧
      s' = ([], [(0, 1.0), (1, 2.0), (2, 3.0)])) ∧
    (∀ (H : Type) (handle : H) (fuel : Nat), ∃ s' tr,
      fill_01 (E := Empty) (fuel + 6) handle (traced_set (total_set store_set))
        (traced_get (total_get (const_get 7.5))) 5 (((), []), []) =
        some (Except.ok (), (s', tr)) ∧
      (getter_results tr) = [Except.ok 7.5, Except.ok 7.5, Except.ok 7.5, Except.ok 7.5,
        Except.ok 7.5] ∧
      setter_calls tr = [(handle, 0, 7.5, Except.ok ()), (handle, 1, 7.5, Except.ok ()),
        (handle, 2, 7.5, Except.ok ()), (handle, 3, 7.5, Except.ok ()),
        (handle, 4, 7.5, Except.ok ())]) := by
  refine ⟨?_, ?_, ?_⟩
  · intro E S H V fuel count hc hf handle f g s
    obtain ⟨s', vs, hl, _, h2⟩ := run_traced_total (E := E) fuel count hc hf handle f g s
    refine ⟨s', _, h2, ?_⟩
    intro i hi
    have hv : vs[i]? = some (vs[i]) := List.getElem?_eq_getElem (by omega)
    refine ⟨vs[i], ?_, ?_, ?_⟩
    · rw [getter_results_pairs, List.getElem?_map, hv]; rfl
    · rw [setter_calls_pairs, hv]; simp
    · intro h' v' r hm
      have := (set_mem_pairs handle vs 0 h' i v' r hm).2.2.2
      rw [Nat.sub_zero, hv] at this
      exact (Option.some.inj this).symm
  · intro H handle fuel
    exact ⟨_, _, rfl, rfl, rfl, rfl⟩
  · intro H handle fuel
    exact ⟨_, _, rfl, rfl, rfl⟩

theorem fill_01_value_pairing_witness :
    (2 < UINT64_MOD ∧ 2 < 3) ∧
    ∃ s' tr,
      fill_01 (E := Empty) 3 (4096 : Nat) (traced_set (total_set store_set))
        (traced_get (total_get queue_get)) 2 (([1.0, 2.0], []), []) =
        some (Except.ok (), (s', tr)) ∧
      (∀ i, i < 2 → ∃ v,
        (getter_results tr)[i]? = some (Except.ok v) ∧
        (setter_calls tr)[i]? = some (4096, i, v, Except.ok ()) ∧
        (∀ h' v' r, Event.set h' i v' r ∈ tr → v' = v)) :=
  ⟨⟨by decide, by decide⟩,
    fill_01_value_pairing.1 Empty (List Float × List (Nat × Float)) Nat Float 3 2
      (by decide) (by decide) 4096 store_set queue_get ([1.0, 2.0], [])⟩

/-- C4: the invocation trace of `fill_01` has length `2 * count` and strictly alternates:
for every `i < count` the event at position `2 * i` is a getter call, it is preceded by
exactly `i` getter calls (so it is the `i`-th one), and the event at position `2 * i + 1`
is the setter call with index `i` carrying that getter's value. Hence getter `i` comes
before setter `i`, and both come before getter `i + 1` at position `2 * (i + 1)`. -/
theorem fill_01_alternation {E S H V : Type} (fuel count : Nat)
    (hc : count < UINT64_MOD) (hf : count < fuel) (handle : H)
    (f : H → Nat → V → S → S) (g : S → V × S) (s : S) :
    ∃ s' tr,
      fill_01 (E := E) fuel handle (traced_set (total_set f)) (traced_get (total_get g)) count
        (s, []) = some (Except.ok (), (s', tr)) ∧
      tr.length = 2 * count ∧
      (∀ i, i < count → ∃ v,
        tr[2 * i]? = some (Event.get (Except.ok v)) ∧
        (getter_results (tr.take (2 * i))).length = i ∧
        (setter_calls (tr.take (2 * i + 1))).length = i ∧
        tr[2 * i + 1]? = some (Event.set handle i v (Except.ok ()))) := by
  obtain ⟨s', vs, hl, _, h2⟩ := run_traced_total (E := E) fuel count hc hf handle f g s
  refine ⟨s', _, h2, by rw [length_pairs, hl], ?_⟩
  intro i hi
  have hv : vs[i]? = some (vs[i]) := List.getElem?_eq_getElem (by omega)
  refine ⟨vs[i], ?_, ?_, ?_, ?_⟩
  · rw [pairs_even, hv]; rfl
  · rw [take_pairs, getter_results_pairs, List.length_map, List.length_take]
    omega
  · rw [List.take_succ, take_pairs, pairs_even, hv, setter_calls_append, List.length_append,
      length_setter_calls_pairs]
    simp [setter_calls, List.length_take]
    omega
  · rw [pairs_odd, hv]; simp

theorem fill_01_alternation_witness :
    (3 < UINT64_MOD ∧ 3 < 4) ∧
    ∃ s' tr,
      fill_01 (E := Empty) 4 (4096 : Nat) (traced_set (total_set store_set))
        (traced_get (total_get queue_get)) 3 (([1.0, 2.0, 3.0], []), []) =
        some (Except.ok (), (s', tr)) ∧
      tr.length = 2 * 3 ∧
      (∀ i, i < 3 → ∃ v,
        tr[2 * i]? = some (Event.get (Except.ok v)) ∧
        (getter_results (tr.take (2 * i))).length = i ∧
        (setter_calls (tr.take (2 * i + 1))).length = i ∧
        tr[2 * i + 1]? = some (Event.set 4096 i v (Except.ok ()))) :=
  ⟨⟨by decide, by decide⟩,
    fill_01_alternation 4 3 (by decide) (by decide) 4096 store_set queue_get
      ([1.0, 2.0, 3.0], [])⟩

/-- C5: with `count = 0` and any getter and setter (faulting ones included), `fill_01`
returns normally with the host state unchanged, and its invocation trace is empty:
neither capability is called. -/
theorem fill_01_zero_count {E S H V : Type} (fuel : Nat) (hf : 0 < fuel) (handle : H)
    (set : fset E S H V) (get : fget E S V) (s : S) :
    fill_01 fuel handle set get 0 s = some (Except.ok (), s) ∧
    fill_01 fuel handle (traced_set set) (traced_get get) 0 (s, []) =
      some (Except.ok (), (s, [])) := by
  obtain ⟨n, rfl⟩ : ∃ n, fuel = n + 1 := ⟨fuel - 1, by omega⟩
  exact ⟨rfl, rfl⟩

theorem fill_01_zero_count_witness :
    0 < 1 ∧
    fill_01 1 (4096 : Nat) (bounded_set 2) flaky_get 0 (([1.0] : List Float), []) =
      some (Except.ok (), ([1.0], [])) ∧
    fill_01 1 (4096 : Nat) (traced_set (bounded_set 2)) (traced_get flaky_get) 0
      ((([1.0] : List Float), []), []) = some (Except.ok (), (([1.0], []), [])) :=
  ⟨by decide, fill_01_zero_count 1 (by decide) 4096 (bounded_set 2) flaky_get ([1.0], [])⟩

/-- C6: every setter call made by `fill_01 handle ...` carries exactly `handle`, and the
routine adds no effect of its own on the host state: any property of the state kept by
the getter and by the setter when called on `handle` still holds after the run. -/
theorem fill_01_handle_forwarded {E S H V : Type} (fuel count : Nat)
    (hc : count < UINT64_MOD) (hf : count < fuel) (handle : H)
    (f : H → Nat → V → S → S) (g : S → V × S) (s : S) :
    ∃ s' tr,
      fill_01 (E := E) fuel handle (traced_set (total_set f)) (traced_get (total_get g)) count
        (s, []) = some (Except.ok (), (s', tr)) ∧
      (∀ c ∈ setter_calls tr, c.1 = handle) ∧
      (∀ h' i v r, Event.set h' i v r ∈ tr → h' = handle) ∧
      (∀ P : S → Prop, (∀ t, P t → P (g t).2) → (∀ i v t, P t → P (f handle i v t)) →
        P s → P s') := by
  obtain ⟨s', vs, hl, h1, h2⟩ := run_traced_total (E := E) fuel count hc hf handle f g s
  refine ⟨s', _, h2, ?_, ?_, ?_⟩
  · intro c hcm
    obtain ⟨j, hj, rfl⟩ := List.getElem_of_mem hcm
    have := setter_calls_pairs (E := E) handle vs 0 j
    rw [List.getElem?_eq_getElem hj] at this
    cases hv : vs[j]? with
    | none => rw [hv] at this; cases this
    | some v => rw [hv] at this; simp at this; rw [this]
  · intro h' i v r hm
    exact (set_mem_pairs handle vs 0 h' i v r hm).1
  · intro P hg hs hP
    have h3 := fill_01_total_state (E := E) fuel count hc hf handle f g s
    rw [h1] at h3
    have h4 : s' = (iter (E := E) handle (total_set f) (total_get g) count 0 s).2 := by
      simpa using h3
    rw [h4]
    exact iter_total_inv handle f g P hg hs count 0 s hP

theorem fill_01_handle_forwarded_witness :
    (3 < UINT64_MOD ∧ 3 < 4) ∧
    ∃ s' tr,
      fill_01 (E := Empty) 4 (4096 : Nat) (traced_set (total_set store_set))
        (traced_get (total_get queue_get)) 3 (([1.0, 2.0, 3.0], []), []) =
        some (Except.ok (), (s', tr)) ∧
      (∀ c ∈ setter_calls tr, c.1 = 4096) ∧
      (∀ h' i v r, Event.set h' i v r ∈ tr → h' = 4096) ∧
      (∀ P : List Float × List (Nat × Float) → Prop,
        (∀ t, P t → P (queue_get t).2) → (∀ i v t, P t → P (store_set 4096 i v t)) →
        P ([1.0, 2.0, 3.0], []) → P s') :=
  ⟨⟨by decide, by decide⟩,
    fill_01_handle_forwarded 4 3 (by decide) (by decide) 4096 store_set queue_get
      ([1.0, 2.0, 3.0], [])⟩

/-- C7: capability faults as error results. With enough fuel the run always ends, with the
same outcome and host state as the traced run. If the `k`-th getter call faults with `e`,
then `k < count`, `fill_01` ends with exactly `e`, that call is the last event of the
trace, no earlier event is a fault, the setter was called exactly for the indices
`0, ..., k-1` and the getter `k + 1` times. If a setter call with index `k` faults with
`e`, then `k < count`, `fill_01` ends with exactly `e`, that call is the last event, no
earlier event is a fault, the setter indices are `0, ..., k` and the getter was called
`k + 1` times. And `fill_01` ends with a fault `e` exactly when some invocation of the
trace faulted with `e`. -/
theorem fill_01_fault_propagation {E S H V : Type} (fuel count : Nat)
    (hc : count < UINT64_MOD) (hf : count < fuel) (handle : H) (set : fset E S H V)
    (get : fget E S V) (s : S) :
    ∃ r s' tr, fill_01 fuel handle set get count s = some (r, s') ∧
      fill_01 fuel handle (traced_set set) (traced_get get) count (s, []) =
        some (r, (s', tr)) ∧
      (∀ k e, (getter_results tr)[k]? = some (Except.error e) →
        k < count ∧ r = Except.error e ∧
        tr.getLast? = some (Event.get (Except.error e)) ∧
        (∀ ev ∈ tr.dropLast, ev.fault = none) ∧
        setter_indices tr = List.range k ∧
        (getter_results tr).length = k + 1) ∧
      (∀ k e h' v, Event.set h' k v (Except.error e) ∈ tr →
        k < count ∧ r = Except.error e ∧
        tr.getLast? = some (Event.set handle k v (Except.error e)) ∧
        (∀ ev ∈ tr.dropLast, ev.fault = none) ∧
        setter_indices tr = List.range (k + 1) ∧
        (getter_results tr).length = k + 1) ∧
      (∀ e, r = Except.error e ↔ ∃ ev ∈ tr, ev.fault = some e) := by
  obtain ⟨r, s', tr, h1, h2, vs, tl, h3, h4⟩ := run_traced fuel count hc hf handle set get s
  refine ⟨r, s', tr, h1, h2, ?_, ?_, ?_⟩
  · intro k e hk
    rw [h3, getter_results_append, getter_results_pairs] at hk
    rcases h4 with ⟨_, _, c⟩ | ⟨e', a, b, c⟩ | ⟨e', w, a, b, c⟩
    · subst c
      simp [getter_results] at hk
    · subst c
      simp only [getter_results] at hk
      by_cases hlt : k < vs.length
      · rw [List.getElem?_append_left (by simpa using hlt)] at hk
        simp at hk
      · rw [List.getElem?_append_right (by simpa using hlt)] at hk
        simp only [List.length_map] at hk
        have hk0 : k - vs.length = 0 := by
          by_contra hne
          obtain ⟨m, hm⟩ : ∃ m, k - vs.length = m + 1 := ⟨k - vs.length - 1, by omega⟩
          rw [hm] at hk
          simp at hk
        rw [hk0] at hk
        simp at hk
        subst hk
        have hkv : k = vs.length := by omega
        subst hkv
        refine ⟨b, a, by simp [h3], ?_, ?_, ?_⟩
        · intro ev hev
          rw [h3] at hev
          simp at hev
          exact fault_pairs handle vs 0 ev hev
        · rw [h3]
          simp only [setter_indices, setter_calls_append, setter_calls, List.append_nil]
          have := setter_indices_pairs (E := E) handle vs 0
          simp only [setter_indices] at this
          rw [this, List.range_eq_range']
        · rw [h3, getter_results_append, getter_results_pairs]
          simp [getter_results]
    · subst c
      simp only [getter_results] at hk
      by_cases hlt : k < vs.length
      · rw [List.getElem?_append_left (by simpa using hlt)] at hk
        simp at hk
      · rw [List.getElem?_append_right (by simpa using hlt)] at hk
        simp only [List.length_map] at hk
        by_cases hk0 : k - vs.length = 0
        · rw [hk0] at hk
          simp at hk
        · obtain ⟨m, hm⟩ : ∃ m, k - vs.length = m + 1 := ⟨k - vs.length - 1, by omega⟩
          rw [hm] at hk
          simp at hk
  · intro k e h' v hmem
    rw [h3, List.mem_append] at hmem
    rcases hmem with hmem | hmem
    · have := (set_mem_pairs handle vs 0 h' k v _ hmem).2.1
      cases this
    · rcases h4 with ⟨_, _, c⟩ | ⟨e', a, b, c⟩ | ⟨e', w, a, b, c⟩
      · subst c
        simp at hmem
      · subst c
        simp at hmem
      · subst c
        simp at hmem
        obtain ⟨rfl, rfl, rfl, rfl⟩ := hmem
        refine ⟨by omega, a, by simp [h3], ?_, ?_, ?_⟩
        · intro ev hev
          rw [h3] at hev
          have hd : (pairs (E := E) h' 0 vs ++
              [Event.get (Except.ok v), Event.set h' (0 + vs.length) v (Except.error e)]).dropLast
              = pairs h' 0 vs ++ [Event.get (Except.ok v)] := by
            rw [List.dropLast_append_of_ne_nil _ (by simp)]
            rfl
          rw [hd, List.mem_append] at hev
          rcases hev with hev | hev
          · exact fault_pairs h' vs 0 ev hev
          · simp at hev
            subst hev
            rfl
        · rw [h3]
          simp only [setter_indices, setter_calls_append, setter_calls, List.map_append]
          have := setter_indices_pairs (E := E) h' vs 0
          simp only [setter_indices] at this
          rw [this, List.range_eq_range']
          simp [List.range'_concat]
        · rw [h3, getter_results_append, getter_results_pairs]
          simp [getter_results]
  · intro e
    constructor
    · intro hr
      rcases h4 with ⟨a, _, _⟩ | ⟨e', a, b, c⟩ | ⟨e', w, a, b, c⟩
      · rw [hr] at a
        cases a
      · rw [hr] at a
        cases a
        exact ⟨Event.get (Except.error e), by simp [h3, c], rfl⟩
      · rw [hr] at a
        cases a
        exact ⟨Event.set handle (0 + vs.length) w (Except.error e), by simp [h3, c], rfl⟩
    · rintro ⟨ev, hev, hfault⟩
      rw [h3, List.mem_append] at hev
      rcases hev with hev | hev
      · rw [fault_pairs handle vs 0 ev hev] at hfault
        cases hfault
      · rcases h4 with ⟨_, _, c⟩ | ⟨e', a, b, c⟩ | ⟨e', w, a, b, c⟩
        · subst c
          simp at hev
        · subst c
          simp at hev
          subst hev
          simp [Event.fault] at hfault
          rw [a, hfault]
        · subst c
          simp at hev
          rcases hev with rfl | rfl
          · simp [Event.fault] at hfault
          · simp [Event.fault] at hfault
            rw [a, hfault]

theorem fill_01_fault_propagation_witness :
    (3 < UINT64_MOD ∧ 3 < 4) ∧
    (∃ r s' tr,
      fill_01 4 (4096 : Nat) (bounded_set 5) flaky_get 3 (([1.0, 2.0] : List Float), []) =
        some (r, s') ∧
      fill_01 4 (4096 : Nat) (traced_set (bounded_set 5)) (traced_get flaky_get) 3
        ((([1.0, 2.0] : List Float), []), []) = some (r, (s', tr)) ∧
      (∀ k e, (getter_results tr)[k]? = some (Except.error e) →
        k < 3 ∧ r = Except.error e ∧
        tr.getLast? = some (Event.get (Except.error e)) ∧
        (∀ ev ∈ tr.dropLast, ev.fault = none) ∧
        setter_indices tr = List.range k ∧
        (getter_results tr).length = k + 1) ∧
      (∀ k e h' v, Event.set h' k v (Except.error e) ∈ tr →
        k < 3 ∧ r = Except.error e ∧
        tr.getLast? = some (Event.set 4096 k v (Except.error e)) ∧
        (∀ ev ∈ tr.dropLast, ev.fault = none) ∧
        setter_indices tr = List.range (k + 1) ∧
        (getter_results tr).length = k + 1) ∧
      (∀ e, r = Except.error e ↔ ∃ ev ∈ tr, ev.fault = some e)) ∧
    fill_01 4 (4096 : Nat) (traced_set (bounded_set 5)) (traced_get flaky_get) 3
      ((([1.0, 2.0] : List Float), []), []) =
      some (Except.error "exhausted", (([], [(0, 1.0), (1, 2.0)]),
        [Event.get (Except.ok 1.0), Event.set 4096 0 1.0 (Except.ok ()),
         Event.get (Except.ok 2.0), Event.set 4096 1 2.0 (Except.ok ()),
         Event.get (Except.error "exhausted")])) ∧
    fill_01 4 (4096 : Nat) (traced_set (bounded_set 1)) (traced_get flaky_get) 3
      ((([1.0, 2.0] : List Float), []), []) =
      some (Except.error "out of range", (([], [(0, 1.0)]),
        [Event.get (Except.ok 1.0), Event.set 4096 0 1.0 (Except.ok ()),
         Event.get (Except.ok 2.0), Event.set 4096 1 2.0 (Except.error "out of range")])) :=
  ⟨⟨by decide, by decide⟩,
    fill_01_fault_propagation 4 3 (by decide) (by decide) 4096 (bounded_set 5) flaky_get
      ([1.0, 2.0], []), rfl, rfl⟩

/-- C10: for total getter/setter models the host state after `fill_01` is the reference
fold `fill_ref`: starting from the initial state, for `i = 0, ..., count-1` in order,
run the getter and then the setter on `(handle, i, v)` in the state the getter left. -/
theorem fill_01_refines_fill_ref {E S H V : Type} (fuel count : Nat)
    (hc : count < UINT64_MOD) (hf : count < fuel) (handle : H)
    (f : H → Nat → V → S → S) (g : S → V × S) (s : S) :
    fill_01 (E := E) fuel handle (total_set f) (total_get g) count s =
      some (Except.ok (), fill_ref handle f g count s) := by
  rw [fill_01_total_state fuel count hc hf handle f g s, iter_total_fold, fill_ref,
    List.range_eq_range']

theorem fill_01_refines_fill_ref_witness :
    (3 < UINT64_MOD ∧ 3 < 4) ∧
    fill_01 (E := Empty) 4 (4096 : Nat) (total_set store_set) (total_get queue_get) 3
      ([1.0, 2.0, 3.0], []) =
      some (Except.ok (), fill_ref 4096 store_set queue_get 3 ([1.0, 2.0, 3.0], [])) :=
  ⟨⟨by decide, by decide⟩,
    fill_01_refines_fill_ref 4 3 (by decide) (by decide) 4096 store_set queue_get
      ([1.0, 2.0, 3.0], [])⟩

/-- C11: for every 64-bit `count`, `fill_01` terminates whenever its capabilities return
(normally or with a fault), and with capabilities that always return normally it runs
exactly `count` iterations: the loop test is evaluated `count + 1` times, so any fuel
above `count` gives the same normal result and no fuel up to `count` is enough. On every
iteration the measure `count - i` strictly decreases, and the loop continues exactly when
`i < count` and exits exactly when it fails. -/
theorem fill_01_terminates {E S H V : Type} (count : Nat) (hc : count < UINT64_MOD)
    (handle : H) (f : H → Nat → V → S → S) (g : S → V × S) (s : S) :
    (∀ (set : fset E S H V) (get : fget E S V) (fuel : Nat), count < fuel →
      ∃ r s', fill_01 fuel handle set get count s = some (r, s')) ∧
    (∃ s', ∀ fuel, count < fuel →
      fill_01 (E := E) fuel handle (total_set f) (total_get g) count s =
        some (Except.ok (), s')) ∧
    (∀ fuel, fuel ≤ count →
      fill_01 (E := E) fuel handle (total_set f) (total_get g) count s = none) ∧
    (∀ i, i < count →
      (i + 1) % UINT64_MOD ≤ count ∧ count - (i + 1) % UINT64_MOD < count - i) ∧
    (∀ fuel i t,
      loop (E := E) handle (total_set f) (total_get g) count (fuel + 1) i t =
        if i < count then
          loop handle (total_set f) (total_get g) count fuel ((i + 1) % UINT64_MOD)
            (f handle i (g t).1 (g t).2)
        else some (Except.ok (), t)) := by
  refine ⟨?_, ?_, ?_, ?_, ?_⟩
  · intro set get fuel hf
    obtain ⟨r, s', _, h, _, _⟩ := run_traced fuel count hc hf handle set get s
    exact ⟨r, s', h⟩
  · exact ⟨_, fun fuel hf => fill_01_total_state fuel count hc hf handle f g s⟩
  · intro fuel hf
    exact loop_total_none handle f g count hc fuel count 0 s (by omega) hf
  · intro i hi
    have h2 : (i + 1) % UINT64_MOD = i + 1 := Nat.mod_eq_of_lt (by omega)
    rw [h2]
    omega
  · intro fuel i t
    rfl

theorem fill_01_terminates_witness :
    3 < UINT64_MOD ∧
    ((∀ (set : fset String (List Float × List (Nat × Float)) Nat Float)
        (get : fget String (List Float × List (Nat × Float)) Float) (fuel : Nat), 3 < fuel →
      ∃ r s', fill_01 fuel 4096 set get 3 ([1.0, 2.0, 3.0], []) = some (r, s')) ∧
    (∃ s', ∀ fuel, 3 < fuel →
      fill_01 (E := String) fuel (4096 : Nat) (total_set store_set) (total_get queue_get) 3
        ([1.0, 2.0, 3.0], []) = some (Except.ok (), s')) ∧
    (∀ fuel, fuel ≤ 3 →
      fill_01 (E := String) fuel (4096 : Nat) (total_set store_set) (total_get queue_get) 3
        ([1.0, 2.0, 3.0], []) = none) ∧
    (∀ i, i < 3 →
      (i + 1) % UINT64_MOD ≤ 3 ∧ 3 - (i + 1) % UINT64_MOD < 3 - i) ∧
    (∀ fuel i t,
      loop (E := String) (4096 : Nat) (total_set store_set) (total_get queue_get) 3 (fuel + 1)
        i t =
        if i < 3 then
          loop 4096 (total_set store_set) (total_get queue_get) 3 fuel ((i + 1) % UINT64_MOD)
            (store_set 4096 i (queue_get t).1 (queue_get t).2)
        else some (Except.ok (), t))) ∧
    fill_01 (E := String) 4 (4096 : Nat) (total_set store_set) (total_get queue_get) 3
      ([1.0, 2.0, 3.0], []) = some (Except.ok (), ([], [(0, 1.0), (1, 2.0), (2, 3.0)])) ∧
    fill_01 (E := String) 3 (4096 : Nat) (total_set store_set) (total_get queue_get) 3
      ([1.0, 2.0, 3.0], []) = none :=
  ⟨by decide, fill_01_terminates 3 (by decide) 4096 store_set queue_get ([1.0, 2.0, 3.0], []),
    rfl, rfl⟩

/-- C12: the 64-bit loop counter never wraps. For every `count` up to `2 ^ 64 - 1`, every
increment is made with `i < count`, so `i + 1 ≤ 2 ^ 64 - 1` and the increment modulo
`2 ^ 64` is the exact one; the loop equals the loop with the exact integer increment from
every counter and state; every index passed to the setter is below `count`, and no index
(index 0 in particular) is passed twice. -/
theorem fill_01_counter_never_wraps {E S H V : Type} (fuel count : Nat)
    (hc : count < UINT64_MOD) (hf : count < fuel) (handle : H) (set : fset E S H V)
    (get : fget E S V) (s : S) :
    (∀ i, i < count → i + 1 ≤ UINT64_MOD - 1 ∧ (i + 1) % UINT64_MOD = i + 1) ∧
    (∀ k j t, loop handle set get count k j t = loop_exact handle set get count k j t) ∧
    (∃ r s' tr,
      fill_01 fuel handle (traced_set set) (traced_get get) count (s, []) =
        some (r, (s', tr)) ∧
      (∀ idx ∈ setter_indices tr, idx < count) ∧
      (setter_indices tr).Nodup ∧
      (setter_indices tr).count 0 ≤ 1) := by
  refine ⟨?_, ?_, ?_⟩
  · intro i hi
    exact ⟨by omega, Nat.mod_eq_of_lt (by omega)⟩
  · exact loop_eq_loop_exact handle set get count hc
  · obtain ⟨r, s', tr, _, h, hs⟩ := run_traced fuel count hc hf handle set get s
    obtain ⟨m, hm, hr⟩ := setter_indices_of_shape handle count r tr hs
    refine ⟨r, s', tr, h, ?_, ?_, ?_⟩
    · intro idx hidx
      rw [hr, List.mem_range] at hidx
      omega
    · rw [hr]; exact List.nodup_range m
    · rw [hr]; exact List.nodup_iff_count_le_one.1 (List.nodup_range m) 0

theorem fill_01_counter_never_wraps_witness :
    (18446744073709551615 < UINT64_MOD ∧ 18446744073709551615 < 18446744073709551616) ∧
    (∀ i, i < 18446744073709551615 →
      i + 1 ≤ UINT64_MOD - 1 ∧ (i + 1) % UINT64_MOD = i + 1) ∧
    (∀ k j t,
      loop (4096 : Nat) (bounded_set 5) flaky_get 18446744073709551615 k j t =
        loop_exact 4096 (bounded_set 5) flaky_get 18446744073709551615 k j t) ∧
    (∃ r s' tr,
      fill_01 18446744073709551616 (4096 : Nat) (traced_set (bounded_set 5))
        (traced_get flaky_get) 18446744073709551615 ((([1.0, 2.0] : List Float), []), []) =
        some (r, (s', tr)) ∧
      (∀ idx ∈ setter_indices tr, idx < 18446744073709551615) ∧
      (setter_indices tr).Nodup ∧
      (setter_indices tr).count 0 ≤ 1) :=
  ⟨⟨by decide, by decide⟩,
    fill_01_counter_never_wraps 18446744073709551616 18446744073709551615 (by decide)
      (by decide) 4096 (bounded_set 5) flaky_get ([1.0, 2.0], [])⟩

/-- C13: `fill_01` extends in `count`. For `n + 1 < 2 ^ 64`, running with count `n + 1` is
running with count `n` and then, unless a fault already ended that run, evaluating the
loop body once at index `n`; with capabilities that never fault the trace for `n + 1` is
the trace for `n` followed by one getter call and one setter call on `(handle, n, v)` with
`v` that getter's result; and for all `m ≤ k ≤ n + 1` the trace for count `k` starts with
the trace for count `m` from the same initial state. -/
theorem fill_01_extends_in_count {E S H V : Type} (fuel n : Nat)
    (hn : n + 1 < UINT64_MOD) (hf : n + 1 < fuel) (handle : H) (set : fset E S H V)
    (get : fget E S V) (s : S) :
    (fill_01 fuel handle set get (n + 1) s =
      match fill_01 fuel handle set get n s with
      | some (Except.ok _, s_n) => some (body handle set get n s_n)
      | other => other) ∧
    (∀ (f : H → Nat → V → S → S) (g : S → V × S), ∃ s_n tr_n,
      fill_01 (E := E) fuel handle (traced_set (total_set f)) (traced_get (total_get g)) n
        (s, []) = some (Except.ok (), (s_n, tr_n)) ∧
      fill_01 (E := E) fuel handle (traced_set (total_set f)) (traced_get (total_get g))
        (n + 1) (s, []) =
        some (Except.ok (), (f handle n (g s_n).1 (g s_n).2,
          tr_n ++ [Event.get (Except.ok (g s_n).1),
            Event.set handle n (g s_n).1 (Except.ok ())]))) ∧
    (∀ m k, m ≤ k → k ≤ n + 1 → ∃ r_m s_m tr_m r_k s_k ext,
      fill_01 fuel handle (traced_set set) (traced_get get) m (s, []) =
        some (r_m, (s_m, tr_m)) ∧
      fill_01 fuel handle (traced_set set) (traced_get get) k (s, []) =
        some (r_k, (s_k, tr_m ++ ext))) := by
  have step : ∀ {T : Type} (st : fset E T H V) (gt : fget E T V) (t : T),
      fill_01 fuel handle st gt (n + 1) t =
        match fill_01 fuel handle st gt n t with
        | some (Except.ok _, s_n) => some (body handle st gt n s_n)
        | other => other := by
    intro T st gt t
    simp only [fill_01]
    rw [loop_eq_iter handle st gt (n + 1) hn (n + 1) fuel 0 t (by omega) hf,
      loop_eq_iter handle st gt n (by omega) n fuel 0 t (by omega) (by omega),
      iter_add handle st gt n 1 0 t]
    rcases hi : iter handle st gt n 0 t with ⟨r, s_n⟩
    cases r with
    | error e => rfl
    | ok u =>
      simp only [iter_one]
      rw [Nat.zero_add]
  refine ⟨step set get s, ?_, ?_⟩
  · intro f g
    obtain ⟨s_n, vs, _, _, h2⟩ :=
      run_traced_total (E := E) fuel n (by omega) (by omega) handle f g s
    refine ⟨s_n, _, h2, ?_⟩
    rw [step, h2]
    simp [body, traced_get, traced_set, total_get, total_set]
  · intro m k hmk hk
    exact traced_extends fuel m k (by omega) (by omega) hmk handle set get s

theorem fill_01_extends_in_count_witness :
    (2 + 1 < UINT64_MOD ∧ 2 + 1 < 4) ∧
    ((fill_01 4 (4096 : Nat) (bounded_set 5) flaky_get (2 + 1)
        (([1.0, 2.0, 3.0] : List Float), []) =
      match fill_01 4 (4096 : Nat) (bounded_set 5) flaky_get 2
        (([1.0, 2.0, 3.0] : List Float), []) with
      | some (Except.ok _, s_n) => some (body 4096 (bounded_set 5) flaky_get 2 s_n)
      | other => other) ∧
    (∀ (f : Nat → Nat → Float → List Float × List (Nat × Float) →
          List Float × List (Nat × Float))
        (g : List Float × List (Nat × Float) → Float × (List Float × List (Nat × Float))),
      ∃ s_n tr_n,
        fill_01 (E := String) 4 (4096 : Nat) (traced_set (total_set f))
          (traced_get (total_get g)) 2 (([1.0, 2.0, 3.0], []), []) =
          some (Except.ok (), (s_n, tr_n)) ∧
        fill_01 (E := String) 4 (4096 : Nat) (traced_set (total_set f))
          (traced_get (total_get g)) (2 + 1) (([1.0, 2.0, 3.0], []), []) =
          some (Except.ok (), (f 4096 2 (g s_n).1 (g s_n).2,
            tr_n ++ [Event.get (Except.ok (g s_n).1),
              Event.set 4096 2 (g s_n).1 (Except.ok ())]))) ∧
    (∀ m k, m ≤ k → k ≤ 2 + 1 → ∃ r_m s_m tr_m r_k s_k ext,
      fill_01 4 (4096 : Nat) (traced_set (bounded_set 5)) (traced_get flaky_get) m
        ((([1.0, 2.0, 3.0] : List Float), []), []) = some (r_m, (s_m, tr_m)) ∧
      fill_01 4 (4096 : Nat) (traced_set (bounded_set 5)) (traced_get flaky_get) k
        ((([1.0, 2.0, 3.0] : List Float), []), []) = some (r_k, (s_k, tr_m ++ ext)))) ∧
    fill_01 4 (4096 : Nat) (traced_set (bounded_set 5)) (traced_get flaky_get) 2
      ((([1.0, 2.0, 3.0] : List Float), []), []) =
      some (Except.ok (), (([3.0], [(0, 1.0), (1, 2.0)]),
        [Event.get (Except.ok 1.0), Event.set 4096 0 1.0 (Except.ok ()),
         Event.get (Except.ok 2.0), Event.set 4096 1 2.0 (Except.ok ())])) ∧
    fill_01 4 (4096 : Nat) (traced_set (bounded_set 5)) (traced_get flaky_get) 3
      ((([1.0, 2.0, 3.0] : List Float), []), []) =
      some (Except.ok (), (([], [(0, 1.0), (1, 2.0), (2, 3.0)]),
        [Event.get (Except.ok 1.0), Event.set 4096 0 1.0 (Except.ok ()),
         Event.get (Except.ok 2.0), Event.set 4096 1 2.0 (Except.ok ()),
         Event.get (Except.ok 3.0), Event.set 4096 2 3.0 (Except.ok ())])) :=
  ⟨⟨by decide, by decide⟩,
    fill_01_extends_in_count 4 2 (by decide) (by decide) 4096 (bounded_set 5) flaky_get
      ([1.0, 2.0, 3.0], []), rfl, rfl⟩

end Fill01
